import Mathlib

/-!
Verification of the feed service of the mock-instagram repository.

The definitions below are a shallow embedding of the feed service
(the event handlers, the ScyllaDB-backed feed store, the Redis page
cache and the paginated read path of GET /api/feed), together with the
slice of the post service that the feed service calls during backfill
and hydration.  User ids, post ids and timestamps are modelled as Nat;
the per-user feed partition is a list of rows kept in descending
created_at order, matching the CLUSTERING ORDER BY (created_at DESC)
of the user_feeds table; the Redis cache is a map from string keys to
an expiry time and a stored page.
-/

namespace MockInstagram

/-- A row of the posts table of the post service (the fields the feed
service consumes: id, user_id and created_at). -/
structure Post where
  id : Nat
  author : Nat
  created_at : Nat
deriving DecidableEq

/-- A row of the user_feeds table: PRIMARY KEY (user_id, created_at),
clustered descending by created_at. -/
structure FeedRow where
  user_id : Nat
  created_at : Nat
  post_id : Nat
  author_id : Nat
deriving DecidableEq

/-- The JSON body assembled by GET /api/feed.  The early return for an
empty page slice carries no offset field, hence offset is optional. -/
structure FeedPage where
  posts : List Post
  hasMore : Bool
  offset : Option Nat
deriving DecidableEq

/-- The state of the feed service: the ScyllaDB tables (user_feeds,
user_followers, user_following), the Redis follower/following backup
sets, and the Redis cache.  A cache value is (expiry time, page);
setEx with TTL 120 stores expiry = now + 120. -/
structure FeedState where
  user_feeds : Nat → List FeedRow
  user_followers : Nat → List Nat
  user_following : Nat → List Nat
  rFollowers : Nat → List Nat
  rFollowing : Nat → List Nat
  cache : String → Option (Nat × FeedPage)

/-- The empty initial state: fresh tables and an empty cache. -/
def initState : FeedState :=
  ⟨fun _ => [], fun _ => [], fun _ => [], fun _ => [], fun _ => [], fun _ => none⟩

/-- Decimal digits of a Nat, most significant first; fuel-driven so that
the definition is structurally recursive.  Fuel n suffices for value n. -/
def natDigitsAux : Nat → Nat → List Nat
  | 0, _ => []
  | _ + 1, 0 => []
  | fuel + 1, n + 1 => natDigitsAux fuel ((n + 1) / 10) ++ [(n + 1) % 10]

/-- The character for one decimal digit. -/
def digitChar10 (d : Nat) : Char := Char.ofNat (48 + d)

/-- Decimal rendering of a Nat, as produced by JS template-literal
interpolation of a number. -/
def natStr (n : Nat) : String :=
  if n = 0 then "0" else String.mk ((natDigitsAux n n).map digitChar10)

/-- The Redis key under which GET /api/feed caches a page:
feed_cache:${userId}:${offset}:${limit}. -/
def pageCacheKey (u off lim : Nat) : String :=
  "feed_cache:" ++ natStr u ++ ":" ++ natStr off ++ ":" ++ natStr lim

/-- The Redis key the event handlers delete: feed_cache:${userId},
with no offset/limit suffix. -/
def userCacheKey (u : Nat) : String :=
  "feed_cache:" ++ natStr u

/-- Redis GET of a cached page at time now: present and not expired. -/
def cacheGet (c : String → Option (Nat × FeedPage)) (now : Nat) (k : String) :
    Option FeedPage :=
  match c k with
  | none => none
  | some (expiry, page) => if now < expiry then some page else none

/-- Redis SETEX: store a page under a key with an expiry time. -/
def cacheSet (c : String → Option (Nat × FeedPage)) (k : String)
    (expiry : Nat) (page : FeedPage) : String → Option (Nat × FeedPage) :=
  fun k2 => if k2 = k then some (expiry, page) else c k2

/-- Redis DEL of one key. -/
def cacheDel (c : String → Option (Nat × FeedPage)) (k : String) :
    String → Option (Nat × FeedPage) :=
  fun k2 => if k2 = k then none else c k2

/-- Insert a row into a feed partition.  The partition is kept in
descending created_at order; a row whose created_at equals that of an
existing row overwrites it, modelling the upsert of INSERT under
PRIMARY KEY (user_id, created_at). -/
def feedInsert : List FeedRow → FeedRow → List FeedRow
  | [], r => [r]
  | x :: xs, r =>
    if r.created_at = x.created_at then r :: xs
    else if x.created_at < r.created_at then r :: x :: xs
    else x :: feedInsert xs r

/-- Update the partition of one user, leaving all others unchanged. -/
def updFeeds (feeds : Nat → List FeedRow) (u : Nat) (part : List FeedRow) :
    Nat → List FeedRow :=
  fun x => if x = u then part else feeds x

/-- Append an element to a list unless already present (one step of
building a JS Set, which keeps first occurrences). -/
def insertUnique (l : List Nat) (x : Nat) : List Nat :=
  if x ∈ l then l else l ++ [x]

/-- The deduplicated list built by new Set([...]) from a JS array. -/
def jsSet (l : List Nat) : List Nat := l.foldl insertUnique []

/-- Redis SADD on a set modelled as a duplicate-free list. -/
def sAdd (s : List Nat) (x : Nat) : List Nat :=
  if x ∈ s then s else s ++ [x]

/-- GET /api/posts/:postId of the post service: the post with the given
id, or not-found. -/
def resolvePost (posts : List Post) (pid : Nat) : Option Post :=
  posts.find? (fun q => q.id == pid)

/-- Descending created_at order on posts (ORDER BY created_at DESC). -/
def postGE (p q : Post) : Prop := q.created_at ≤ p.created_at

instance : DecidableRel postGE :=
  fun p q => inferInstanceAs (Decidable (q.created_at ≤ p.created_at))

instance : IsTotal Post postGE :=
  ⟨fun p q => Nat.le_total q.created_at p.created_at⟩

instance : IsTrans Post postGE :=
  ⟨fun _ _ _ h1 h2 => Nat.le_trans h2 h1⟩

/-- GET /api/posts/user/:userId?limit=k of the post service: the k most
recent posts of one author, descending by created_at. -/
def postsByUser (posts : List Post) (a k : Nat) : List Post :=
  (List.insertionSort postGE (posts.filter (fun p => p.author == a))).take k

/-- Fan-out of one published post: insert a row into the partition of
every target, in target-list order. -/
def fanout (feeds : Nat → List FeedRow) (targets : List Nat)
    (t p a : Nat) : Nat → List FeedRow :=
  targets.foldl (fun fs v => updFeeds fs v (feedInsert (fs v) ⟨v, t, p, a⟩)) feeds

/-- The cache deletions performed after fan-out: DEL feed_cache:${id}
for every target id. -/
def delUserCaches (c : String → Option (Nat × FeedPage)) (targets : List Nat) :
    String → Option (Nat × FeedPage) :=
  targets.foldl (fun c2 v => cacheDel c2 (userCacheKey v)) c

/-- Handler of post.created: read the followers of the author from the
user_followers table and from the Redis backup set, add the author
itself, insert a feed row for every target, then delete the per-user
cache keys. -/
def handlePostCreated (st : FeedState) (postId authorId createdAt : Nat) :
    FeedState :=
  let allFollowers :=
    jsSet (st.user_followers authorId ++ st.rFollowers authorId ++ [authorId])
  { st with
    user_feeds := fanout st.user_feeds allFollowers createdAt postId authorId
    cache := delUserCaches st.cache allFollowers }

/-- Handler of post.deleted: it only reads the follower table and
writes nothing; stale rows are left in place for read-time filtering. -/
def handlePostDeleted (st : FeedState) (_postId authorId : Nat) : FeedState :=
  let _followers := st.user_followers authorId
  st

/-- The backfill inserts of user.followed: a feed row for each of the
recent posts of the followee, inserted in fetched (descending) order,
all into the partition of the follower. -/
def backfillFeeds (feeds : Nat → List FeedRow) (recent : List Post)
    (f g : Nat) : Nat → List FeedRow :=
  recent.foldl
    (fun fs q => updFeeds fs f (feedInsert (fs f) ⟨f, q.created_at, q.id, g⟩)) feeds

/-- Handler of user.followed: write the edge in both ScyllaDB index
directions and both Redis sets, backfill up to 20 recent posts of the
followee into the feed of the follower keyed by their original
created_at, then delete the per-user cache key of the follower. -/
def handleUserFollowed (posts : List Post) (st : FeedState)
    (followerId followingId : Nat) : FeedState :=
  let recent := postsByUser posts followingId 20
  { st with
    user_followers := fun u =>
      if u = followingId then sAdd (st.user_followers u) followerId
      else st.user_followers u
    user_following := fun u =>
      if u = followerId then sAdd (st.user_following u) followingId
      else st.user_following u
    rFollowers := fun u =>
      if u = followingId then sAdd (st.rFollowers u) followerId
      else st.rFollowers u
    rFollowing := fun u =>
      if u = followerId then sAdd (st.rFollowing u) followingId
      else st.rFollowing u
    user_feeds := backfillFeeds st.user_feeds recent followerId followingId
    cache := cacheDel st.cache (userCacheKey followerId) }

/-- Handler of user.unfollowed: delete the edge from both ScyllaDB
index directions and both Redis sets, delete the per-user cache key of
the follower, and leave the user_feeds table untouched. -/
def handleUserUnfollowed (st : FeedState) (followerId followingId : Nat) :
    FeedState :=
  { st with
    user_followers := fun u =>
      if u = followingId then (st.user_followers u).filter (fun x => x != followerId)
      else st.user_followers u
    user_following := fun u =>
      if u = followerId then (st.user_following u).filter (fun x => x != followingId)
      else st.user_following u
    rFollowers := fun u =>
      if u = followingId then (st.rFollowers u).filter (fun x => x != followerId)
      else st.rFollowers u
    rFollowing := fun u =>
      if u = followerId then (st.rFollowing u).filter (fun x => x != followingId)
      else st.rFollowing u
    cache := cacheDel st.cache (userCacheKey followerId) }

/-- The page GET /api/feed assembles on a cache miss with a non-empty
slice: fetch limit + offset + 1 rows from the head of the partition,
slice [offset, offset + limit), hydrate each row through the post
service skipping rows whose post does not resolve, compute hasMore
from the raw fetched window, and report offset + hydrated count. -/
def pageOf (posts : List Post) (st : FeedState) (u off lim : Nat) : FeedPage :=
  let rows := (st.user_feeds u).take (lim + off + 1)
  let feedItems := (rows.drop off).take lim
  let hydrated := feedItems.filterMap (fun it => resolvePost posts it.post_id)
  { posts := hydrated
    hasMore := decide (off + lim < rows.length)
    offset := some (off + hydrated.length) }

/-- The cache after the miss path stores the assembled page under the
page key with TTL 120. -/
def cacheAfterMiss (posts : List Post) (st : FeedState) (now u off lim : Nat) :
    String → Option (Nat × FeedPage) :=
  cacheSet st.cache (pageCacheKey u off lim) (now + 120) (pageOf posts st u off lim)

/-- The miss path of GET /api/feed: an empty slice returns the empty
page early, without an offset field and without caching; a non-empty
slice assembles, caches and returns the hydrated page. -/
def getFeedMiss (posts : List Post) (st : FeedState) (now u off lim : Nat) :
    FeedPage × FeedState :=
  if (((st.user_feeds u).take (lim + off + 1)).drop off).take lim = [] then
    (⟨[], false, none⟩, st)
  else
    (pageOf posts st u off lim, { st with cache := cacheAfterMiss posts st now u off lim })

/-- The read path GET /api/feed for one user at time now: a cached,
unexpired page is returned verbatim; otherwise the miss path runs. -/
def getFeed (posts : List Post) (st : FeedState) (now : Nat)
    (u off lim : Nat) : FeedPage × FeedState :=
  match cacheGet st.cache now (pageCacheKey u off lim) with
  | some page => (page, st)
  | none => getFeedMiss posts st now u off lim

/-- The acknowledgement decision of the RabbitMQ consumer. -/
inductive MqAction where
  | ack
  | nackRequeue
deriving DecidableEq

/-- The fields the four event payloads can carry. -/
structure EventData where
  postId : Nat
  userId : Nat
  createdAt : Nat
  followerId : Nat
  followingId : Nat
deriving DecidableEq

/-- A consumed RabbitMQ message: its routing key and its payload, which
is none when JSON.parse of the body fails. -/
structure RawMsg where
  routingKey : String
  payload : Option EventData

/-- The consumer callback handleEvent: parse the payload, dispatch on
the routing key, ack on success; any error, including a parse failure,
reaches the catch block which nacks with requeue. -/
def handleEvent (posts : List Post) (st : FeedState) (msg : RawMsg) :
    FeedState × MqAction :=
  match msg.payload with
  | none => (st, MqAction.nackRequeue)
  | some d =>
    let st2 :=
      if msg.routingKey = "post.created" then
        handlePostCreated st d.postId d.userId d.createdAt
      else if msg.routingKey = "post.deleted" then
        handlePostDeleted st d.postId d.userId
      else if msg.routingKey = "user.followed" then
        handleUserFollowed posts st d.followerId d.followingId
      else if msg.routingKey = "user.unfollowed" then
        handleUserUnfollowed st d.followerId d.followingId
      else st
    (st2, MqAction.ack)

/-- A sequence of post.created events (postId, createdAt) by one
author, processed in order. -/
def pubFold (st : FeedState) (evs : List (Nat × Nat)) (a : Nat) : FeedState :=
  evs.foldl (fun s e => handlePostCreated s e.1 a e.2) st

/-- 1001 publish events (postId, createdAt) = (i + 1, i + 1) with
strictly increasing timestamps, one more than the retention bound
N = 1000 named by the spec. -/
def c2Events : List (Nat × Nat) := (List.range 1001).map (fun i => (i + 1, i + 1))

/-- Three publish events with strictly increasing timestamps. -/
def evs3 : List (Nat × Nat) := [(1, 1), (2, 2), (3, 3)]

/-- A one-post post store: post 9 by user 1 at time 50. -/
def psOne : List Post := [⟨9, 1, 50⟩]

/-- A feed row referencing post 9 by author 7 at time 50. -/
def rowOne : FeedRow := ⟨1, 50, 9, 7⟩

/-- A state whose user 1 partition holds exactly one row. -/
def stOneRow : FeedState :=
  { initState with user_feeds := fun u => if u = 1 then [rowOne] else [] }

/-- Two feed rows for user 1 referencing posts that no store resolves. -/
def rowsC10 : List FeedRow := [⟨1, 60, 8, 7⟩, ⟨1, 50, 9, 7⟩]

/-- A state whose user 1 partition holds the two dangling rows. -/
def stC10 : FeedState :=
  { initState with user_feeds := fun u => if u = 1 then rowsC10 else [] }

/-- Twenty posts by user 7 with distinct ids 1..20 and distinct
creation times 100..119. -/
def postsW : List Post := (List.range 20).map (fun i => ⟨i + 1, 7, 100 + i⟩)

/-- A state in which user 1 has ScyllaDB followers 2 and 3, and Redis
backup follower 2. -/
def stC1 : FeedState :=
  { initState with
    user_followers := fun u => if u = 1 then [2, 3] else []
    rFollowers := fun u => if u = 1 then [2] else [] }

/-- A message whose payload failed to parse. -/
def msgMal : RawMsg := { routingKey := "post.created", payload := none }

/-- A well-formed payload. -/
def dataOk : EventData := ⟨9, 1, 50, 2, 3⟩

/-- A well-formed post.deleted message. -/
def msgOk : RawMsg := { routingKey := "post.deleted", payload := some dataOk }

/-! Helper lemmas about decimal key rendering. -/

theorem natDigitsAux_lt_ten (fuel : Nat) :
    ∀ n, ∀ d ∈ natDigitsAux fuel n, d < 10 := by
  induction fuel with
  | zero => intro n d hd; simp [natDigitsAux] at hd
  | succ fuel ih =>
    intro n d hd
    cases n with
    | zero => simp [natDigitsAux] at hd
    | succ m =>
      rw [natDigitsAux] at hd
      rcases List.mem_append.mp hd with h | h
      · exact ih _ d h
      · simp only [List.mem_singleton] at h
        subst h
        exact Nat.mod_lt _ (by omega)

theorem digitChar10_ne_colon (d : Nat) (hd : d < 10) : digitChar10 d ≠ ':' := by
  interval_cases d <;> decide

theorem natStr_no_colon (n : Nat) : ':' ∉ (natStr n).data := by
  unfold natStr
  split
  · decide
  · intro hmem
    have hmem2 : ':' ∈ (natDigitsAux n n).map digitChar10 := hmem
    rcases List.mem_map.mp hmem2 with ⟨d, hd, hc⟩
    exact digitChar10_ne_colon d (natDigitsAux_lt_ten n n d hd) hc

theorem userKey_ne_pageKey (f u off lim : Nat) :
    userCacheKey f ≠ pageCacheKey u off lim := by
  intro h
  have hd : (userCacheKey f).data = (pageCacheKey u off lim).data := by rw [h]
  unfold userCacheKey pageCacheKey at hd
  simp only [String.data_append, List.append_assoc] at hd
  have hd2 := List.append_cancel_left hd
  have hcolon : ':' ∈ (natStr f).data := by
    rw [hd2]
    refine List.mem_append.mpr (Or.inr ?_)
    refine List.mem_append.mpr (Or.inl ?_)
    decide
  exact natStr_no_colon f hcolon

/-! Helper lemmas about feed partition inserts. -/

theorem feedInsert_head (part : List FeedRow) (r : FeedRow)
    (h : ∀ x ∈ part, x.created_at < r.created_at) :
    feedInsert part r = r :: part := by
  cases part with
  | nil => rfl
  | cons x xs =>
    have hx := h x (List.mem_cons_self x xs)
    simp only [feedInsert]
    rw [if_neg (by omega), if_pos hx]

theorem feedInsert_tail (part : List FeedRow) (r : FeedRow)
    (h : ∀ x ∈ part, r.created_at < x.created_at) :
    feedInsert part r = part ++ [r] := by
  induction part with
  | nil => rfl
  | cons x xs ih =>
    have hx := h x (List.mem_cons_self x xs)
    simp only [feedInsert]
    rw [if_neg (by omega), if_neg (by omega),
      ih (fun y hy => h y (List.mem_cons_of_mem x hy))]
    simp

theorem self_mem_feedInsert (part : List FeedRow) (r : FeedRow) :
    r ∈ feedInsert part r := by
  induction part with
  | nil => simp [feedInsert]
  | cons x xs ih =>
    simp only [feedInsert]
    split
    · exact List.mem_cons_self r xs
    · split
      · exact List.mem_cons_self r (x :: xs)
      · exact List.mem_cons_of_mem x ih

theorem feedInsert_idem (part : List FeedRow) (r : FeedRow) :
    feedInsert (feedInsert part r) r = feedInsert part r := by
  induction part with
  | nil => simp [feedInsert]
  | cons x xs ih =>
    by_cases h1 : r.created_at = x.created_at
    · simp [feedInsert, h1]
    · by_cases h2 : x.created_at < r.created_at
      · simp [feedInsert, h1, h2]
      · simp only [feedInsert, if_neg h1, if_neg h2]
        simp only [feedInsert, if_neg h1, if_neg h2, ih]

/-! Helper lemmas about JS Set construction. -/

theorem mem_insertUnique (l : List Nat) (x y : Nat) :
    y ∈ insertUnique l x ↔ y ∈ l ∨ y = x := by
  unfold insertUnique
  split
  · constructor
    · exact Or.inl
    · rintro (h | rfl)
      · exact h
      · assumption
  · simp

theorem nodup_insertUnique (l : List Nat) (x : Nat) (h : l.Nodup) :
    (insertUnique l x).Nodup := by
  unfold insertUnique
  split
  · exact h
  · simp [List.nodup_append, h, *]

theorem mem_foldl_insertUnique (l : List Nat) :
    ∀ acc x, x ∈ l.foldl insertUnique acc ↔ x ∈ acc ∨ x ∈ l := by
  induction l with
  | nil => simp
  | cons a l ih =>
    intro acc x
    simp only [List.foldl_cons, ih, mem_insertUnique, List.mem_cons]
    tauto

theorem nodup_foldl_insertUnique (l : List Nat) :
    ∀ acc, acc.Nodup → (l.foldl insertUnique acc).Nodup := by
  induction l with
  | nil => intro acc h; simpa using h
  | cons a l ih => exact fun acc h => ih _ (nodup_insertUnique _ _ h)

theorem mem_jsSet (l : List Nat) (x : Nat) : x ∈ jsSet l ↔ x ∈ l := by
  unfold jsSet
  rw [mem_foldl_insertUnique]
  simp

theorem nodup_jsSet (l : List Nat) : (jsSet l).Nodup :=
  nodup_foldl_insertUnique l [] List.nodup_nil

/-! Helper lemmas describing the pointwise effect of the fan-out and
backfill folds. -/

theorem fanout_apply (targets : List Nat) (hnd : targets.Nodup)
    (feeds : Nat → List FeedRow) (t p a u : Nat) :
    fanout feeds targets t p a u
      = if u ∈ targets then feedInsert (feeds u) ⟨u, t, p, a⟩ else feeds u := by
  revert hnd
  induction targets generalizing feeds with
  | nil => intro _; simp [fanout]
  | cons v ts ih =>
    intro hnd
    rcases List.nodup_cons.mp hnd with ⟨hv, hts⟩
    show fanout (updFeeds feeds v (feedInsert (feeds v) ⟨v, t, p, a⟩)) ts t p a u = _
    rw [ih _ hts]
    by_cases hu : u = v
    · subst hu
      simp [updFeeds, hv]
    · by_cases hmem : u ∈ ts <;> simp [updFeeds, hu, hmem]

theorem backfillFeeds_apply (recent : List Post) (feeds : Nat → List FeedRow)
    (f g u : Nat) :
    backfillFeeds feeds recent f g u
      = if u = f
        then (recent.map (fun q => (⟨f, q.created_at, q.id, g⟩ : FeedRow))).foldl
              feedInsert (feeds f)
        else feeds u := by
  induction recent generalizing feeds with
  | nil => by_cases hu : u = f <;> simp [backfillFeeds, hu]
  | cons q qs ih =>
    show backfillFeeds (updFeeds feeds f (feedInsert (feeds f) ⟨f, q.created_at, q.id, g⟩))
        qs f g u = _
    rw [ih]
    by_cases hu : u = f <;> simp [updFeeds, hu]

theorem foldl_feedInsert_desc (rows : List FeedRow) :
    ∀ acc : List FeedRow,
      List.Pairwise (fun r1 r2 => r2.created_at < r1.created_at) rows →
      (∀ x ∈ acc, ∀ r ∈ rows, r.created_at < x.created_at) →
      rows.foldl feedInsert acc = acc ++ rows := by
  induction rows with
  | nil => simp
  | cons r rs ih =>
    intro acc hd hacc
    rcases List.pairwise_cons.mp hd with ⟨hr, hrs⟩
    have h1 : feedInsert acc r = acc ++ [r] :=
      feedInsert_tail acc r (fun x hx => hacc x hx r (List.mem_cons_self r rs))
    simp only [List.foldl_cons, h1]
    rw [ih (acc ++ [r]) hrs ?_]
    · simp
    · intro x hx r2 hr2
      rcases List.mem_append.mp hx with h | h
      · exact hacc x h r2 (List.mem_cons_of_mem r hr2)
      · simp only [List.mem_singleton] at h
        subst h
        exact hr r2 hr2

/-! Helper lemmas about the Redis cache model. -/

theorem delUserCaches_apply (targets : List Nat)
    (c : String → Option (Nat × FeedPage)) (k : String) :
    delUserCaches c targets k
      = if ∃ v ∈ targets, userCacheKey v = k then none else c k := by
  induction targets generalizing c with
  | nil => simp [delUserCaches]
  | cons v ts ih =>
    show delUserCaches (cacheDel c (userCacheKey v)) ts k = _
    rw [ih]
    by_cases hex : ∃ v2 ∈ ts, userCacheKey v2 = k
    · rcases hex with ⟨v2, hv2, he⟩
      rw [if_pos ⟨v2, hv2, he⟩, if_pos ⟨v2, List.mem_cons_of_mem v hv2, he⟩]
    · rw [if_neg hex]
      by_cases hk : userCacheKey v = k
      · rw [if_pos ⟨v, List.mem_cons_self v ts, hk⟩]
        show (if k = userCacheKey v then none else c k) = none
        rw [if_pos hk.symm]
      · rw [if_neg ?hcond]
        case hcond =>
          rintro ⟨v2, hv2, he⟩
          rcases List.mem_cons.mp hv2 with rfl | hv2
          · exact hk he
          · exact hex ⟨v2, hv2, he⟩
        show (if k = userCacheKey v then none else c k) = c k
        rw [if_neg (fun h => hk h.symm)]

theorem cacheGet_delUserCaches (targets : List Nat)
    (c : String → Option (Nat × FeedPage)) (now u off lim : Nat) :
    cacheGet (delUserCaches c targets) now (pageCacheKey u off lim)
      = cacheGet c now (pageCacheKey u off lim) := by
  have hno : ¬ ∃ v ∈ targets, userCacheKey v = pageCacheKey u off lim := by
    rintro ⟨v, _, h⟩
    exact userKey_ne_pageKey v u off lim h
  unfold cacheGet
  rw [delUserCaches_apply, if_neg hno]

theorem cacheGet_cacheDel_user (c : String → Option (Nat × FeedPage))
    (f now u off lim : Nat) :
    cacheGet (cacheDel c (userCacheKey f)) now (pageCacheKey u off lim)
      = cacheGet c now (pageCacheKey u off lim) := by
  unfold cacheGet cacheDel
  rw [if_neg (fun h => userKey_ne_pageKey f u off lim h.symm)]

theorem cacheGet_cacheSet_self (c : String → Option (Nat × FeedPage))
    (k : String) (expiry : Nat) (pg : FeedPage) (now : Nat) (h : now < expiry) :
    cacheGet (cacheSet c k expiry pg) now k = some pg := by
  unfold cacheGet cacheSet
  simp [h]

theorem cacheGet_eq_none (c : String → Option (Nat × FeedPage))
    (now : Nat) (k : String) (hc : c k = none) : cacheGet c now k = none := by
  unfold cacheGet
  rw [hc]

theorem cacheGet_eq_entry (c : String → Option (Nat × FeedPage))
    (now : Nat) (k : String) (e : Nat) (pg : FeedPage) (hc : c k = some (e, pg)) :
    cacheGet c now k = if now < e then some pg else none := by
  unfold cacheGet
  rw [hc]

theorem cacheGet_mono (c : String → Option (Nat × FeedPage))
    (now now2 : Nat) (k : String) (pg : FeedPage) (hle : now ≤ now2)
    (h : cacheGet c now2 k = some pg) : cacheGet c now k = some pg := by
  cases hc : c k with
  | none => rw [cacheGet_eq_none c now2 k hc] at h; cases h
  | some v =>
    rcases v with ⟨e, pg2⟩
    rw [cacheGet_eq_entry c now2 k e pg2 hc] at h
    rw [cacheGet_eq_entry c now k e pg2 hc]
    by_cases he : now2 < e
    · rw [if_pos he] at h
      rw [if_pos (lt_of_le_of_lt hle he)]
      exact h
    · rw [if_neg he] at h
      cases h

/-! Helper lemmas unfolding the read path. -/

theorem getFeed_hit (posts : List Post) (st : FeedState) (now u off lim : Nat)
    (pg : FeedPage) (h : cacheGet st.cache now (pageCacheKey u off lim) = some pg) :
    getFeed posts st now u off lim = (pg, st) := by
  unfold getFeed
  rw [h]

theorem getFeed_miss (posts : List Post) (st : FeedState) (now u off lim : Nat)
    (hmiss : cacheGet st.cache now (pageCacheKey u off lim) = none) :
    getFeed posts st now u off lim = getFeedMiss posts st now u off lim := by
  unfold getFeed
  rw [hmiss]

theorem getFeed_missEmpty (posts : List Post) (st : FeedState) (now u off lim : Nat)
    (hmiss : cacheGet st.cache now (pageCacheKey u off lim) = none)
    (hempty : (((st.user_feeds u).take (lim + off + 1)).drop off).take lim = []) :
    getFeed posts st now u off lim = (⟨[], false, none⟩, st) := by
  rw [getFeed_miss posts st now u off lim hmiss]
  unfold getFeedMiss
  rw [if_pos hempty]

theorem getFeed_missNonempty (posts : List Post) (st : FeedState)
    (now u off lim : Nat)
    (hmiss : cacheGet st.cache now (pageCacheKey u off lim) = none)
    (hne : (((st.user_feeds u).take (lim + off + 1)).drop off).take lim ≠ []) :
    getFeed posts st now u off lim
      = (pageOf posts st u off lim,
         { st with cache := cacheAfterMiss posts st now u off lim }) := by
  rw [getFeed_miss posts st now u off lim hmiss]
  unfold getFeedMiss
  rw [if_neg hne]

/-! State extensionality and the shape of repeated self fan-out. -/

theorem feedStateExt (s1 s2 : FeedState)
    (h1 : s1.user_feeds = s2.user_feeds)
    (h2 : s1.user_followers = s2.user_followers)
    (h3 : s1.user_following = s2.user_following)
    (h4 : s1.rFollowers = s2.rFollowers)
    (h5 : s1.rFollowing = s2.rFollowing)
    (h6 : s1.cache = s2.cache) : s1 = s2 := by
  cases s1
  cases s2
  simp_all

theorem jsSet_self (a : Nat) : jsSet ([] ++ [] ++ [a]) = [a] := by
  simp [jsSet, insertUnique]

theorem handlePostCreated_noFollowers_feeds (st : FeedState) (p a t : Nat)
    (h1 : st.user_followers a = []) (h2 : st.rFollowers a = []) :
    (handlePostCreated st p a t).user_feeds a
      = feedInsert (st.user_feeds a) ⟨a, t, p, a⟩ := by
  show fanout st.user_feeds (jsSet (st.user_followers a ++ st.rFollowers a ++ [a]))
      t p a a = _
  rw [h1, h2, jsSet_self]
  rw [fanout_apply [a] (List.nodup_singleton a) st.user_feeds t p a a]
  rw [if_pos (List.mem_singleton.mpr rfl)]

theorem pubFold_partition (evs : List (Nat × Nat)) :
    ∀ st : FeedState, ∀ a : Nat,
      st.user_followers a = [] →
      st.rFollowers a = [] →
      List.Pairwise (fun e1 e2 : Nat × Nat => e1.2 < e2.2) evs →
      (∀ r ∈ st.user_feeds a, ∀ e ∈ evs, r.created_at < e.2) →
      (pubFold st evs a).user_feeds a
          = (evs.reverse.map (fun e => (⟨a, e.2, e.1, a⟩ : FeedRow))) ++ st.user_feeds a
        ∧ (pubFold st evs a).user_followers a = []
        ∧ (pubFold st evs a).rFollowers a = [] := by
  induction evs with
  | nil => intro st a h1 h2 _ _; exact ⟨by simp [pubFold], h1, h2⟩
  | cons e evs ih =>
    intro st a h1 h2 hp hfresh
    rcases List.pairwise_cons.mp hp with ⟨he, hevs⟩
    have hstep : (handlePostCreated st e.1 a e.2).user_feeds a
        = (⟨a, e.2, e.1, a⟩ : FeedRow) :: st.user_feeds a := by
      rw [handlePostCreated_noFollowers_feeds st e.1 a e.2 h1 h2]
      exact feedInsert_head _ _ (fun x hx =>
        hfresh x hx e (List.mem_cons_self e evs))
    have hfw : (handlePostCreated st e.1 a e.2).user_followers a = st.user_followers a := rfl
    have hrf : (handlePostCreated st e.1 a e.2).rFollowers a = st.rFollowers a := rfl
    have hrec := ih (handlePostCreated st e.1 a e.2) a (by rw [hfw, h1]) (by rw [hrf, h2])
      hevs ?hfresh2
    case hfresh2 =>
      intro r hr e2 he2
      rw [hstep] at hr
      rcases List.mem_cons.mp hr with rfl | hr
      · exact he e2 he2
      · exact hfresh r hr e2 (List.mem_cons_of_mem e he2)
    refine ⟨?_, hrec.2.1, hrec.2.2⟩
    show (pubFold (handlePostCreated st e.1 a e.2) evs a).user_feeds a = _
    rw [hrec.1, hstep]
    simp [List.reverse_cons]

/-! Helper lemmas about post resolution during hydration. -/

theorem resolvePost_eq_self (posts : List Post)
    (hids : ∀ p1 ∈ posts, ∀ p2 ∈ posts, p1.id = p2.id → p1 = p2)
    (q : Post) (hq : q ∈ posts) : resolvePost posts q.id = some q := by
  unfold resolvePost
  cases hfind : posts.find? (fun r => r.id == q.id) with
  | none =>
    have := List.find?_eq_none.mp hfind q hq
    simp at this
  | some r =>
    have hpr := List.find?_some hfind
    have hmr := List.mem_of_find?_eq_some hfind
    have : r = q := hids r hmr q hq (by simpa using hpr)
    rw [this]

theorem filterMap_resolve_map (posts : List Post) (l : List Post) (f g : Nat)
    (h : ∀ q ∈ l, resolvePost posts q.id = some q) :
    ((l.map (fun q => (⟨f, q.created_at, q.id, g⟩ : FeedRow))).filterMap
      (fun it => resolvePost posts it.post_id)) = l := by
  induction l with
  | nil => rfl
  | cons q qs ih =>
    simp only [List.map_cons, List.filterMap_cons]
    rw [h q (List.mem_cons_self q qs)]
    rw [ih (fun q2 h2 => h q2 (List.mem_cons_of_mem q h2))]

theorem getFeed_posts_le (posts : List Post) (st : FeedState) (now u off lim : Nat)
    (hmiss : cacheGet st.cache now (pageCacheKey u off lim) = none) :
    ((getFeed posts st now u off lim).1).posts.length ≤ lim := by
  by_cases hempty : (((st.user_feeds u).take (lim + off + 1)).drop off).take lim = []
  · rw [getFeed_missEmpty posts st now u off lim hmiss hempty]
    simp
  · rw [getFeed_missNonempty posts st now u off lim hmiss hempty]
    show (pageOf posts st u off lim).posts.length ≤ lim
    unfold pageOf
    calc (((((st.user_feeds u).take (lim + off + 1)).drop off).take lim).filterMap
            (fun it => resolvePost posts it.post_id)).length
        ≤ ((((st.user_feeds u).take (lim + off + 1)).drop off).take lim).length :=
          List.length_filterMap_le _ _
      _ ≤ lim := List.length_take_le lim _

/-- Claim C1: after handling content.published(postId, authorId, createdAt),
every follower of the author at dispatch time, and the author itself, has a
FeedEntry row (owner, createdAt, postId, authorId) in its partition, and the
partition of any user who is neither a follower nor the author is unchanged.
Stated under the hypothesis that the Redis backup follower set is contained
in the authoritative ScyllaDB follower set. -/
theorem fanout_completeness (st : FeedState) (p a t F u : Nat)
    (hsub : ∀ x ∈ st.rFollowers a, x ∈ st.user_followers a)
    (hF : F ∈ st.user_followers a ∨ F = a)
    (hu1 : u ∉ st.user_followers a) (hu2 : u ≠ a) :
    (⟨F, t, p, a⟩ : FeedRow) ∈ (handlePostCreated st p a t).user_feeds F
    ∧ (handlePostCreated st p a t).user_feeds u = st.user_feeds u := by
  have hnd := nodup_jsSet (st.user_followers a ++ st.rFollowers a ++ [a])
  constructor
  · show (⟨F, t, p, a⟩ : FeedRow) ∈
      fanout st.user_feeds (jsSet (st.user_followers a ++ st.rFollowers a ++ [a])) t p a F
    rw [fanout_apply _ hnd st.user_feeds t p a F]
    have hFmem : F ∈ jsSet (st.user_followers a ++ st.rFollowers a ++ [a]) := by
      rw [mem_jsSet]
      rcases hF with h | rfl
      · exact List.mem_append.mpr (Or.inl (List.mem_append.mpr (Or.inl h)))
      · exact List.mem_append.mpr (Or.inr (List.mem_singleton.mpr rfl))
    rw [if_pos hFmem]
    exact self_mem_feedInsert _ _
  · show fanout st.user_feeds (jsSet (st.user_followers a ++ st.rFollowers a ++ [a]))
      t p a u = st.user_feeds u
    rw [fanout_apply _ hnd st.user_feeds t p a u]
    have humem : u ∉ jsSet (st.user_followers a ++ st.rFollowers a ++ [a]) := by
      rw [mem_jsSet]
      intro hmem
      rcases List.mem_append.mp hmem with h | h
      · rcases List.mem_append.mp h with h | h
        · exact hu1 h
        · exact hu1 (hsub u h)
      · exact hu2 (List.mem_singleton.mp h)
    rw [if_neg humem]

/-- Witness for C1: in stC1 (author 1 with ScyllaDB followers 2, 3 and Redis
follower 2), publishing post 9 at time 50 puts row (2, 50, 9, 1) into the
partition of follower 2 and leaves the partition of non-follower 5 unchanged. -/
theorem fanout_completeness_witness :
    (∀ x ∈ stC1.rFollowers 1, x ∈ stC1.user_followers 1)
    ∧ (2 ∈ stC1.user_followers 1 ∨ 2 = 1)
    ∧ (5 ∉ stC1.user_followers 1)
    ∧ (5 ≠ 1)
    ∧ ((⟨2, 50, 9, 1⟩ : FeedRow) ∈ (handlePostCreated stC1 9 1 50).user_feeds 2
        ∧ (handlePostCreated stC1 9 1 50).user_feeds 5 = stC1.user_feeds 5) :=
  ⟨by decide, by decide, by decide, by decide,
    fanout_completeness stC1 9 1 50 2 5 (by decide) (by decide) (by decide) (by decide)⟩

/-- Claim C4: handling the identical content.published event twice yields
exactly the state of handling it once; the second pass overwrites the same
(owner, createdAt) rows and re-deletes the same cache keys. -/
theorem publish_idempotent (st : FeedState) (p a t : Nat) :
    handlePostCreated (handlePostCreated st p a t) p a t = handlePostCreated st p a t := by
  have hnd := nodup_jsSet (st.user_followers a ++ st.rFollowers a ++ [a])
  refine feedStateExt _ _ ?_ rfl rfl rfl rfl ?_
  · funext u
    show fanout (fanout st.user_feeds (jsSet (st.user_followers a ++ st.rFollowers a ++ [a]))
        t p a) (jsSet (st.user_followers a ++ st.rFollowers a ++ [a])) t p a u
      = fanout st.user_feeds (jsSet (st.user_followers a ++ st.rFollowers a ++ [a])) t p a u
    rw [fanout_apply _ hnd _ t p a u, fanout_apply _ hnd st.user_feeds t p a u]
    by_cases hu : u ∈ jsSet (st.user_followers a ++ st.rFollowers a ++ [a])
    · simp only [if_pos hu]
      exact feedInsert_idem _ _
    · simp only [if_neg hu]
  · funext k
    show delUserCaches (delUserCaches st.cache
        (jsSet (st.user_followers a ++ st.rFollowers a ++ [a])))
        (jsSet (st.user_followers a ++ st.rFollowers a ++ [a])) k
      = delUserCaches st.cache (jsSet (st.user_followers a ++ st.rFollowers a ++ [a])) k
    rw [delUserCaches_apply, delUserCaches_apply]
    by_cases hex : ∃ v ∈ jsSet (st.user_followers a ++ st.rFollowers a ++ [a]),
        userCacheKey v = k
    · simp only [if_pos hex]
    · simp only [if_neg hex]

/-- Claim C9: handling edge.removed deletes the follow edge from both index
directions (ScyllaDB user_followers and user_following, and both Redis backup
sets) and leaves every feed partition, hence every already-materialized
FeedEntry row, unchanged. -/
theorem unfollow_frame (st : FeedState) (f g : Nat) :
    f ∉ (handleUserUnfollowed st f g).user_followers g
    ∧ g ∉ (handleUserUnfollowed st f g).user_following f
    ∧ f ∉ (handleUserUnfollowed st f g).rFollowers g
    ∧ g ∉ (handleUserUnfollowed st f g).rFollowing f
    ∧ (handleUserUnfollowed st f g).user_feeds = st.user_feeds := by
  refine ⟨?_, ?_, ?_, ?_, rfl⟩ <;>
    simp [handleUserUnfollowed, List.mem_filter]

/-- Claim C10: in state stC10, whose user 1 partition holds two rows that no
post store resolves, getPage(1, 0, 1) consumes one raw feed entry, hydrates
none of it, and returns posts: [] with hasMore: true and offset 0: hasMore is
computed from the raw window before hydration filtering, and the returned
offset (request offset + hydrated count) undercounts the consumed entries. -/
theorem hasMore_before_hydration :
    (getFeed [] stC10 0 1 0 1).1 = ⟨[], true, some 0⟩
    ∧ ((((stC10.user_feeds 1).take (1 + 0 + 1)).drop 0).take 1).length = 1
    ∧ (0 : Nat) < 1 := by decide

/-- Counterexample to C5: in stOneRow (one row in the partition of user 1),
getPage(1, 0, 0) with limit 0 returns hasMore = false even though the fetched
window (one row) exceeds offset + limit = 0, contradicting the claim that
hasMore is always set to whether the fetched window exceeded offset + limit. -/
theorem pagination_counterexample :
    ((getFeed [] stOneRow 0 1 0 0).1).hasMore = false
    ∧ 0 + 0 < (((stOneRow.user_feeds 1).take (0 + 0 + 1)).length) := by decide

/-- Claim C5 (amended): on a cache miss and for limit at least 1, getPage
fetches offset + limit + 1 rows from the head of the partition, returns the
slice [offset, offset + limit) hydrated, sets hasMore to whether the fetched
window exceeded offset + limit, and returns the empty page with
hasMore = false whenever offset is at least the partition size. -/
theorem getFeed_pagination (posts : List Post) (st : FeedState) (now u off lim : Nat)
    (hmiss : cacheGet st.cache now (pageCacheKey u off lim) = none)
    (hlim : 1 ≤ lim) :
    ((getFeed posts st now u off lim).1).posts
        = ((((st.user_feeds u).take (lim + off + 1)).drop off).take lim).filterMap
            (fun it => resolvePost posts it.post_id)
    ∧ ((getFeed posts st now u off lim).1).hasMore
        = decide (off + lim < ((st.user_feeds u).take (lim + off + 1)).length)
    ∧ ((st.user_feeds u).length ≤ off →
        (getFeed posts st now u off lim).1 = ⟨[], false, none⟩) := by
  by_cases hempty : (((st.user_feeds u).take (lim + off + 1)).drop off).take lim = []
  · rw [getFeed_missEmpty posts st now u off lim hmiss hempty]
    have hdrop : (((st.user_feeds u).take (lim + off + 1)).drop off) = [] := by
      rcases List.take_eq_nil_iff.mp hempty with h | h
      · omega
      · exact h
    have hrowslen : ((st.user_feeds u).take (lim + off + 1)).length ≤ off := by
      have := List.drop_eq_nil_iff.mp hdrop
      omega
    refine ⟨by rw [hempty]; rfl, ?_, fun _ => rfl⟩
    show (false : Bool) = decide (off + lim < ((st.user_feeds u).take (lim + off + 1)).length)
    symm
    exact decide_eq_false (by omega)
  · rw [getFeed_missNonempty posts st now u off lim hmiss hempty]
    refine ⟨rfl, rfl, ?_⟩
    intro hlen
    exfalso
    apply hempty
    have h1 : ((st.user_feeds u).take (lim + off + 1)).length ≤ (st.user_feeds u).length := by
      rw [List.length_take]
      omega
    rw [List.drop_eq_nil_of_le (by omega)]
    exact List.take_nil

/-- Witness for C5 (amended): concrete read of stOneRow with offset 0 and
limit 2 on an empty cache. -/
theorem getFeed_pagination_witness :
    cacheGet stOneRow.cache 0 (pageCacheKey 1 0 2) = none
    ∧ (1 : Nat) ≤ 2
    ∧ (((getFeed psOne stOneRow 0 1 0 2).1).posts
          = ((((stOneRow.user_feeds 1).take (2 + 0 + 1)).drop 0).take 2).filterMap
              (fun it => resolvePost psOne it.post_id)
        ∧ ((getFeed psOne stOneRow 0 1 0 2).1).hasMore
          = decide (0 + 2 < ((stOneRow.user_feeds 1).take (2 + 0 + 1)).length)
        ∧ ((stOneRow.user_feeds 1).length ≤ 0 →
            (getFeed psOne stOneRow 0 1 0 2).1 = ⟨[], false, none⟩)) :=
  ⟨by decide, by decide,
    getFeed_pagination psOne stOneRow 0 1 0 2 (by decide) (by decide)⟩

/-- Counterexample to C8: the message msgMal with unparseable payload is
negatively acknowledged and requeued by handleEvent, not acknowledged and
dropped as the claim states. -/
theorem malformed_counterexample :
    (handleEvent [] initState msgMal).2 = MqAction.nackRequeue
    ∧ (handleEvent [] initState msgMal).2 ≠ MqAction.ack := by
  constructor
  · rfl
  · intro h
    cases h

/-- Claim C8 (amended): a consumed message whose payload is unparseable is
negatively acknowledged and requeued through the catch-all error path, the
same path as a handler failure, leaving the state unchanged; every message
with a parseable payload is dispatched and acknowledged. -/
theorem ingestor_ack_amended (posts : List Post) (st : FeedState) (msg : RawMsg) :
    (msg.payload = none → handleEvent posts st msg = (st, MqAction.nackRequeue))
    ∧ (∀ d, msg.payload = some d → (handleEvent posts st msg).2 = MqAction.ack) := by
  constructor
  · intro h
    unfold handleEvent
    rw [h]
  · intro d h
    unfold handleEvent
    rw [h]

/-- Witness for C8 (amended): the malformed message is requeued with the
state unchanged; the well-formed post.deleted message msgOk is acked. -/
theorem ingestor_ack_witness :
    handleEvent [] initState msgMal = (initState, MqAction.nackRequeue)
    ∧ (handleEvent [] initState msgOk).2 = MqAction.ack :=
  ⟨(ingestor_ack_amended [] initState msgMal).1 rfl,
   (ingestor_ack_amended [] initState msgOk).2 dataOk rfl⟩

theorem c2Events_pairwise :
    List.Pairwise (fun e1 e2 : Nat × Nat => e1.2 < e2.2) c2Events := by
  unfold c2Events
  refine List.Pairwise.map _ ?_ (List.pairwise_lt_range 1001)
  intro i j hij
  simpa using hij

/-- Counterexample to C2: processing the 1001 events of c2Events (publishes
by author 0, who has no followers, with strictly increasing timestamps
1..1001) leaves all 1001 rows in the partition of owner 0: the entry with
the smallest createdAt, row (0, 1, 1, 0), is still in the durable store, so
it was not evicted, and the partition is not trimmed to N = 1000 entries. -/
theorem retention_counterexample :
    (⟨0, 1, 1, 0⟩ : FeedRow) ∈ (pubFold initState c2Events 0).user_feeds 0
    ∧ 1000 < ((pubFold initState c2Events 0).user_feeds 0).length := by
  have h := pubFold_partition c2Events initState 0 rfl rfl c2Events_pairwise
    (by intro r hr; simp [initState] at hr)
  rcases h with ⟨hpart, -, -⟩
  constructor
  · rw [hpart]
    refine List.mem_append.mpr (Or.inl ?_)
    rw [List.mem_map]
    refine ⟨(1, 1), ?_, rfl⟩
    rw [List.mem_reverse]
    unfold c2Events
    rw [List.mem_map]
    exact ⟨0, List.mem_range.mpr (by omega), rfl⟩
  · rw [hpart]
    simp [c2Events, initState]

/-- Claim C2 (amended): the ScyllaDB fan-out path performs no retention
trimming at all: after any sequence of publishes by an author with no
followers, with strictly increasing timestamps all newer than the existing
partition content, the partition of the author holds every inserted row
(newest first) on top of the prior content, with nothing evicted; getPage
still never returns more than limit entries, because the read path slices
the fetched window to the requested limit. -/
theorem retention_amended (posts : List Post) (st : FeedState)
    (a now off lim : Nat) (evs : List (Nat × Nat))
    (h1 : st.user_followers a = []) (h2 : st.rFollowers a = [])
    (hp : List.Pairwise (fun e1 e2 : Nat × Nat => e1.2 < e2.2) evs)
    (hfresh : ∀ r ∈ st.user_feeds a, ∀ e ∈ evs, r.created_at < e.2)
    (hmiss : cacheGet (pubFold st evs a).cache now (pageCacheKey a off lim) = none) :
    (pubFold st evs a).user_feeds a
        = (evs.reverse.map (fun e => (⟨a, e.2, e.1, a⟩ : FeedRow))) ++ st.user_feeds a
    ∧ ((getFeed posts (pubFold st evs a) now a off lim).1).posts.length ≤ lim :=
  ⟨(pubFold_partition evs st a h1 h2 hp hfresh).1,
    getFeed_posts_le posts _ now a off lim hmiss⟩

/-- Witness for C2 (amended): three publishes by author 0 from the empty
state, read back with offset 0 and limit 1000. -/
theorem retention_amended_witness :
    initState.user_followers 0 = []
    ∧ initState.rFollowers 0 = []
    ∧ List.Pairwise (fun e1 e2 : Nat × Nat => e1.2 < e2.2) evs3
    ∧ (∀ r ∈ initState.user_feeds 0, ∀ e ∈ evs3, r.created_at < e.2)
    ∧ cacheGet (pubFold initState evs3 0).cache 0 (pageCacheKey 0 0 1000) = none
    ∧ ((pubFold initState evs3 0).user_feeds 0
          = (evs3.reverse.map (fun e => (⟨0, e.2, e.1, 0⟩ : FeedRow)))
              ++ initState.user_feeds 0
        ∧ ((getFeed [] (pubFold initState evs3 0) 0 0 0 1000).1).posts.length ≤ 1000) :=
  ⟨rfl, rfl, by decide, by decide, by decide,
    retention_amended [] initState 0 0 0 1000 evs3 rfl rfl (by decide) (by decide) (by decide)⟩

/-- Claim C7: handling content.retracted changes nothing in the feed state
(no synchronous deletion from any partition), and on a cache miss the read
path returns exactly the hydrations that resolve, silently dropping every
slice entry whose post does not resolve, so no post that resolves to
not-found appears in a freshly assembled page. -/
theorem retraction_lazy (posts : List Post) (st : FeedState) (p a now u off lim : Nat)
    (hmiss : cacheGet st.cache now (pageCacheKey u off lim) = none) :
    handlePostDeleted st p a = st
    ∧ ((getFeed posts st now u off lim).1).posts
        = ((((st.user_feeds u).take (lim + off + 1)).drop off).take lim).filterMap
            (fun it => resolvePost posts it.post_id)
    ∧ (∀ pid, resolvePost posts pid = none →
        ∀ q ∈ ((getFeed posts st now u off lim).1).posts, q.id ≠ pid) := by
  have hposts : ((getFeed posts st now u off lim).1).posts
      = ((((st.user_feeds u).take (lim + off + 1)).drop off).take lim).filterMap
          (fun it => resolvePost posts it.post_id) := by
    by_cases hempty : (((st.user_feeds u).take (lim + off + 1)).drop off).take lim = []
    · rw [getFeed_missEmpty posts st now u off lim hmiss hempty, hempty]
      rfl
    · rw [getFeed_missNonempty posts st now u off lim hmiss hempty]
      rfl
  refine ⟨rfl, hposts, ?_⟩
  intro pid hpid q hq
  rw [hposts] at hq
  rcases List.mem_filterMap.mp hq with ⟨it, _, hres⟩
  intro hqid
  have hqid2 : q.id = it.post_id := by
    have h2 : posts.find? (fun r => r.id == it.post_id) = some q := hres
    simpa using List.find?_some h2
  have hpidit : it.post_id = pid := by rw [← hqid2, hqid]
  rw [hpidit, hpid] at hres
  cases hres

/-- Witness for C7: the empty cache of initState misses, so the theorem
applies with posts store psOne, user 1, offset 0, limit 20. -/
theorem retraction_lazy_witness :
    cacheGet initState.cache 0 (pageCacheKey 1 0 20) = none
    ∧ (handlePostDeleted initState 9 7 = initState
        ∧ ((getFeed psOne initState 0 1 0 20).1).posts
            = ((((initState.user_feeds 1).take (20 + 0 + 1)).drop 0).take 20).filterMap
                (fun it => resolvePost psOne it.post_id)
        ∧ (∀ pid, resolvePost psOne pid = none →
            ∀ q ∈ ((getFeed psOne initState 0 1 0 20).1).posts, q.id ≠ pid)) :=
  ⟨by decide, retraction_lazy psOne initState 9 7 0 1 0 20 (by decide)⟩

/-- Counterexample to C3: from the empty state, getPage(1, 0, 20) returns
the empty page without caching it; author 1 then publishes post 9 at time
50 (self fan-out); a second getPage(1, 0, 20) one second later, well inside
the 120 second TTL window, returns the new post: the two reads inside one
TTL window are not identical. -/
theorem cache_staleness_counterexample :
    (getFeed psOne initState 0 1 0 20).1 = ⟨[], false, none⟩
    ∧ (getFeed psOne (handlePostCreated (getFeed psOne initState 0 1 0 20).2 9 1 50)
          1 1 0 20).1
        = ⟨[⟨9, 1, 50⟩], false, some 1⟩
    ∧ (getFeed psOne (handlePostCreated (getFeed psOne initState 0 1 0 20).2 9 1 50)
          1 1 0 20).1
        ≠ (getFeed psOne initState 0 1 0 20).1
    ∧ (1 : Nat) < 0 + 120 := by decide

/-- Claim C3 (amended): two getPage calls for the same user and page within
the TTL window return identical results even when a content.published event
for that feed is processed in between, provided the first call hit the
cache or produced a non-empty slice (the empty-page fast path is not
cached); moreover no mutation handler (publish, follow, unfollow) ever
evicts a cached page, because the handlers delete the key
feed_cache:user while pages are cached under feed_cache:user:offset:limit. -/
theorem cache_staleness_amended (posts : List Post) (st : FeedState)
    (now now2 u off lim p a t : Nat)
    (h1 : now ≤ now2) (h2 : now2 < now + 120)
    (hfirst : (∃ pg, cacheGet st.cache now2 (pageCacheKey u off lim) = some pg)
      ∨ (cacheGet st.cache now (pageCacheKey u off lim) = none
          ∧ (((st.user_feeds u).take (lim + off + 1)).drop off).take lim ≠ [])) :
    (getFeed posts (handlePostCreated (getFeed posts st now u off lim).2 p a t)
        now2 u off lim).1
      = (getFeed posts st now u off lim).1
    ∧ (∀ st2 : FeedState, ∀ f g n2 u2 o2 l2 : Nat,
        cacheGet (handleUserFollowed posts st2 f g).cache n2 (pageCacheKey u2 o2 l2)
          = cacheGet st2.cache n2 (pageCacheKey u2 o2 l2))
    ∧ (∀ st2 : FeedState, ∀ f g n2 u2 o2 l2 : Nat,
        cacheGet (handleUserUnfollowed st2 f g).cache n2 (pageCacheKey u2 o2 l2)
          = cacheGet st2.cache n2 (pageCacheKey u2 o2 l2))
    ∧ (∀ st2 : FeedState, ∀ p2 a2 t2 n2 u2 o2 l2 : Nat,
        cacheGet (handlePostCreated st2 p2 a2 t2).cache n2 (pageCacheKey u2 o2 l2)
          = cacheGet st2.cache n2 (pageCacheKey u2 o2 l2)) := by
  have hfollow : ∀ st2 : FeedState, ∀ f g n2 u2 o2 l2 : Nat,
      cacheGet (handleUserFollowed posts st2 f g).cache n2 (pageCacheKey u2 o2 l2)
        = cacheGet st2.cache n2 (pageCacheKey u2 o2 l2) := by
    intro st2 f g n2 u2 o2 l2
    show cacheGet (cacheDel st2.cache (userCacheKey f)) n2 (pageCacheKey u2 o2 l2) = _
    exact cacheGet_cacheDel_user st2.cache f n2 u2 o2 l2
  have hunfollow : ∀ st2 : FeedState, ∀ f g n2 u2 o2 l2 : Nat,
      cacheGet (handleUserUnfollowed st2 f g).cache n2 (pageCacheKey u2 o2 l2)
        = cacheGet st2.cache n2 (pageCacheKey u2 o2 l2) := by
    intro st2 f g n2 u2 o2 l2
    show cacheGet (cacheDel st2.cache (userCacheKey f)) n2 (pageCacheKey u2 o2 l2) = _
    exact cacheGet_cacheDel_user st2.cache f n2 u2 o2 l2
  have hpub : ∀ st2 : FeedState, ∀ p2 a2 t2 n2 u2 o2 l2 : Nat,
      cacheGet (handlePostCreated st2 p2 a2 t2).cache n2 (pageCacheKey u2 o2 l2)
        = cacheGet st2.cache n2 (pageCacheKey u2 o2 l2) := by
    intro st2 p2 a2 t2 n2 u2 o2 l2
    show cacheGet (delUserCaches st2.cache
        (jsSet (st2.user_followers a2 ++ st2.rFollowers a2 ++ [a2])))
        n2 (pageCacheKey u2 o2 l2) = _
    exact cacheGet_delUserCaches _ _ n2 u2 o2 l2
  refine ⟨?_, hfollow, hunfollow, hpub⟩
  rcases hfirst with ⟨pg, hhit⟩ | ⟨hmiss, hne⟩
  · have hhit1 : cacheGet st.cache now (pageCacheKey u off lim) = some pg :=
      cacheGet_mono _ now now2 _ pg h1 hhit
    rw [getFeed_hit posts st now u off lim pg hhit1]
    show (getFeed posts (handlePostCreated st p a t) now2 u off lim).1 = pg
    have hcache2 : cacheGet (handlePostCreated st p a t).cache now2
        (pageCacheKey u off lim) = some pg := by
      rw [hpub st p a t now2 u off lim]
      exact hhit
    rw [getFeed_hit posts _ now2 u off lim pg hcache2]
  · rw [getFeed_missNonempty posts st now u off lim hmiss hne]
    show (getFeed posts (handlePostCreated
        { st with cache := cacheAfterMiss posts st now u off lim } p a t)
        now2 u off lim).1
      = pageOf posts st u off lim
    have hcache2 : cacheGet (handlePostCreated
        { st with cache := cacheAfterMiss posts st now u off lim } p a t).cache now2
        (pageCacheKey u off lim) = some (pageOf posts st u off lim) := by
      rw [hpub _ p a t now2 u off lim]
      show cacheGet (cacheAfterMiss posts st now u off lim) now2
          (pageCacheKey u off lim) = some (pageOf posts st u off lim)
      unfold cacheAfterMiss
      exact cacheGet_cacheSet_self st.cache _ (now + 120) _ now2 (by omega)
    rw [getFeed_hit posts _ now2 u off lim _ hcache2]

/-- Witness for C3 (amended): first read of stOneRow at time 0 misses with
a non-empty slice; author 7 publishes post 8 at time 60 in between; the
second read at time 1 returns the identical page. -/
theorem cache_staleness_amended_witness :
    (0 : Nat) ≤ 1
    ∧ (1 : Nat) < 0 + 120
    ∧ ((∃ pg, cacheGet stOneRow.cache 1 (pageCacheKey 1 0 20) = some pg)
        ∨ (cacheGet stOneRow.cache 0 (pageCacheKey 1 0 20) = none
            ∧ (((stOneRow.user_feeds 1).take (20 + 0 + 1)).drop 0).take 20 ≠ []))
    ∧ (getFeed psOne (handlePostCreated (getFeed psOne stOneRow 0 1 0 20).2 8 7 60)
          1 1 0 20).1
        = (getFeed psOne stOneRow 0 1 0 20).1 :=
  ⟨by decide, by decide, Or.inr (by decide),
    (cache_staleness_amended psOne stOneRow 0 1 1 0 20 8 7 60 (by decide) (by decide)
      (Or.inr (by decide))).1⟩

/-! Helper lemmas about the backfill of recent posts on follow. -/

theorem postsByUser_strict (posts : List Post) (g k : Nat)
    (hts : List.Pairwise (fun p q => p.created_at ≠ q.created_at)
      (posts.filter (fun p => p.author == g))) :
    List.Pairwise (fun p q => q.created_at < p.created_at) (postsByUser posts g k) := by
  unfold postsByUser
  have hsorted : List.Pairwise postGE
      (List.insertionSort postGE (posts.filter (fun p => p.author == g))) :=
    List.sorted_insertionSort postGE _
  have hperm := List.perm_insertionSort postGE (posts.filter (fun p => p.author == g))
  have hne : List.Pairwise (fun p q : Post => p.created_at ≠ q.created_at)
      (List.insertionSort postGE (posts.filter (fun p => p.author == g))) :=
    (List.Perm.pairwise_iff (fun h => h.symm) hperm).mpr hts
  have hstrict := (hsorted.and hne).imp
    (fun h => Nat.lt_of_le_of_ne h.1 (fun e => h.2 e.symm))
  exact hstrict.sublist (List.take_sublist k _)

theorem postsByUser_subset (posts : List Post) (g k : Nat) :
    ∀ q ∈ postsByUser posts g k, q ∈ posts := by
  intro q hq
  unfold postsByUser at hq
  have hq2 : q ∈ List.insertionSort postGE (posts.filter (fun p => p.author == g)) :=
    List.mem_of_mem_take hq
  have hq3 := (List.perm_insertionSort postGE _).mem_iff.mp hq2
  exact List.mem_of_mem_filter hq3

theorem postsByUser_length (posts : List Post) (g k : Nat)
    (hcount : k ≤ (posts.filter (fun p => p.author == g)).length) :
    (postsByUser posts g k).length = k := by
  unfold postsByUser
  rw [List.length_take, (List.perm_insertionSort postGE _).length_eq]
  omega

theorem backfill_partition (posts : List Post) (st : FeedState) (f g : Nat)
    (hfeed : st.user_feeds f = [])
    (hstrict : List.Pairwise (fun p q => q.created_at < p.created_at)
      (postsByUser posts g 20)) :
    (handleUserFollowed posts st f g).user_feeds f
      = (postsByUser posts g 20).map (fun q => (⟨f, q.created_at, q.id, g⟩ : FeedRow)) := by
  show backfillFeeds st.user_feeds (postsByUser posts g 20) f g f = _
  rw [backfillFeeds_apply, if_pos rfl, hfeed]
  rw [foldl_feedInsert_desc _ [] ?_ (by intro x hx; cases hx)]
  · rfl
  · rw [List.pairwise_map]
    exact hstrict

/-- Claim C6: when the followee has at least 20 posts with pairwise distinct
creation times and globally unique post ids, and the feed of the follower
starts empty, handling edge.created(follower, followee) inserts exactly the
20 most recent posts of the followee into the partition of the follower,
keyed by each post's original createdAt; a subsequent uncached
getPage(follower, 0, 20) returns exactly those 20 posts, ordered by their
original createdAt descending, independent of the follow time. -/
theorem backfill_correct (posts : List Post) (st : FeedState) (f g now : Nat)
    (hfeed : st.user_feeds f = [])
    (hmiss : cacheGet (handleUserFollowed posts st f g).cache now
      (pageCacheKey f 0 20) = none)
    (hcount : 20 ≤ (posts.filter (fun p => p.author == g)).length)
    (hids : ∀ p1 ∈ posts, ∀ p2 ∈ posts, p1.id = p2.id → p1 = p2)
    (hts : List.Pairwise (fun p q => p.created_at ≠ q.created_at)
      (posts.filter (fun p => p.author == g))) :
    (handleUserFollowed posts st f g).user_feeds f
        = (postsByUser posts g 20).map (fun q => (⟨f, q.created_at, q.id, g⟩ : FeedRow))
    ∧ (postsByUser posts g 20).length = 20
    ∧ List.Pairwise (fun p q => q.created_at < p.created_at) (postsByUser posts g 20)
    ∧ ((getFeed posts (handleUserFollowed posts st f g) now f 0 20).1).posts
        = postsByUser posts g 20 := by
  have hstrict := postsByUser_strict posts g 20 hts
  have hlen := postsByUser_length posts g 20 hcount
  have hpart := backfill_partition posts st f g hfeed hstrict
  refine ⟨hpart, hlen, hstrict, ?_⟩
  have hlenrows : ((handleUserFollowed posts st f g).user_feeds f).length = 20 := by
    rw [hpart, List.length_map, hlen]
  have htake21 : ((handleUserFollowed posts st f g).user_feeds f).take (20 + 0 + 1)
      = (handleUserFollowed posts st f g).user_feeds f :=
    List.take_of_length_le (by omega)
  have hslice : ((((handleUserFollowed posts st f g).user_feeds f).take
        (20 + 0 + 1)).drop 0).take 20
      = (handleUserFollowed posts st f g).user_feeds f := by
    rw [htake21, List.drop_zero]
    exact List.take_of_length_le (by omega)
  have hne : ((((handleUserFollowed posts st f g).user_feeds f).take
      (20 + 0 + 1)).drop 0).take 20 ≠ [] := by
    rw [hslice]
    intro h
    rw [h] at hlenrows
    simp at hlenrows
  rw [getFeed_missNonempty posts _ now f 0 20 hmiss hne]
  show (((((handleUserFollowed posts st f g).user_feeds f).take
      (20 + 0 + 1)).drop 0).take 20).filterMap
      (fun it => resolvePost posts it.post_id) = postsByUser posts g 20
  rw [hslice, hpart]
  exact filterMap_resolve_map posts (postsByUser posts g 20) f g
    (fun q hq => resolvePost_eq_self posts hids q (postsByUser_subset posts g 20 q hq))

/-- Witness for C6: user 3 follows user 7, who has the 20 posts of postsW
with distinct ids and creation times, starting from the empty state. -/
theorem backfill_correct_witness :
    initState.user_feeds 3 = []
    ∧ cacheGet (handleUserFollowed postsW initState 3 7).cache 0
        (pageCacheKey 3 0 20) = none
    ∧ 20 ≤ (postsW.filter (fun p => p.author == 7)).length
    ∧ (∀ p1 ∈ postsW, ∀ p2 ∈ postsW, p1.id = p2.id → p1 = p2)
    ∧ List.Pairwise (fun p q => p.created_at ≠ q.created_at)
        (postsW.filter (fun p => p.author == 7))
    ∧ ((handleUserFollowed postsW initState 3 7).user_feeds 3
          = (postsByUser postsW 7 20).map (fun q => (⟨3, q.created_at, q.id, 7⟩ : FeedRow))
        ∧ (postsByUser postsW 7 20).length = 20
        ∧ List.Pairwise (fun p q => q.created_at < p.created_at) (postsByUser postsW 7 20)
        ∧ ((getFeed postsW (handleUserFollowed postsW initState 3 7) 0 3 0 20).1).posts
          = postsByUser postsW 7 20) :=
  ⟨rfl, by decide, by decide, by decide, by decide,
    backfill_correct postsW initState 3 7 0 rfl (by decide) (by decide) (by decide)
      (by decide)⟩

end MockInstagram
